import Mathlib

/-!
Verification of the audit-log partition cleaner (Go, `auditlog-cleaner`).

The development shallowly embeds the core of `main.go` (partition-key
derivation, partition store operations, the batch writer and the cleanup
guard), the configuration loader of `config/config.go`, and the legacy
timing-configuration fallback of the single-file variant.  Timestamps are
modelled at second precision as calendar records, matching the `TIMESTAMP`
values the program manipulates; the database schema is modelled as the set
of child partitions of `audit_logs` together with the committed rows.
-/

namespace AuditLog

/-- A wall-clock timestamp at second precision, as the program's
`time.Time` values are used (Go nanoseconds never matter here: every
formatted value is at second or minute granularity). -/
structure DateTime where
  year : Nat
  month : Nat
  day : Nat
  hour : Nat
  minute : Nat
  second : Nat
deriving DecidableEq, Repr

/-- Gregorian leap-year rule. -/
def isLeap (y : Nat) : Bool :=
  (y % 4 = 0 && y % 100 ≠ 0) || y % 400 = 0

/-- Days in a month of a given year. -/
def daysInMonth (y m : Nat) : Nat :=
  if m = 2 then (if isLeap y then 29 else 28)
  else if m = 4 ∨ m = 6 ∨ m = 9 ∨ m = 11 then 30
  else 31

/-- A valid calendar timestamp.  Years are bounded by 9999 so that the
four-digit year field of Go's reference layout `2006` is fixed width, as
it is for every timestamp this program can encounter. -/
def Valid (dt : DateTime) : Prop :=
  1 ≤ dt.year ∧ dt.year ≤ 9999 ∧
  1 ≤ dt.month ∧ dt.month ≤ 12 ∧
  1 ≤ dt.day ∧ dt.day ≤ daysInMonth dt.year dt.month ∧
  dt.hour ≤ 23 ∧ dt.minute ≤ 59 ∧ dt.second ≤ 59

instance : DecidablePred Valid := fun _ =>
  inferInstanceAs (Decidable (_ ∧ _))

/-- Mixed-radix key giving the chronological order of timestamps: each
field below the year occupies two decimal digits. -/
def chronKey (dt : DateTime) : Nat :=
  (((((dt.year * 100 + dt.month) * 100 + dt.day) * 100 + dt.hour) * 100
      + dt.minute) * 100) + dt.second

/-- Chronological strict order. -/
def chronLt (a b : DateTime) : Prop := chronKey a < chronKey b

/-- Chronological order, non-strict. -/
def chronLe (a b : DateTime) : Prop := chronKey a ≤ chronKey b

instance (a b : DateTime) : Decidable (chronLt a b) :=
  inferInstanceAs (Decidable (_ < _))

instance (a b : DateTime) : Decidable (chronLe a b) :=
  inferInstanceAs (Decidable (_ ≤ _))

/-- `t.Truncate(time.Minute)` of `main.go:85`: truncate down to the minute
boundary by zeroing the seconds. -/
def truncMinute (dt : DateTime) : DateTime :=
  { dt with second := 0 }

/-- `start.Add(time.Minute)` of `main.go:86`: one minute later, with
calendar carries. -/
def addOneMinute (dt : DateTime) : DateTime :=
  if dt.minute < 59 then { dt with minute := dt.minute + 1 }
  else if dt.hour < 23 then { dt with minute := 0, hour := dt.hour + 1 }
  else if dt.day < daysInMonth dt.year dt.month then
    { dt with minute := 0, hour := 0, day := dt.day + 1 }
  else if dt.month < 12 then
    { dt with minute := 0, hour := 0, day := 1, month := dt.month + 1 }
  else
    { dt with minute := 0, hour := 0, day := 1, month := 1,
              year := dt.year + 1 }

/-- One second earlier, with calendar borrows. -/
def predSecond (dt : DateTime) : DateTime :=
  if 0 < dt.second then { dt with second := dt.second - 1 }
  else if 0 < dt.minute then { dt with second := 59, minute := dt.minute - 1 }
  else if 0 < dt.hour then
    { dt with second := 59, minute := 59, hour := dt.hour - 1 }
  else if 1 < dt.day then
    { dt with second := 59, minute := 59, hour := 23, day := dt.day - 1 }
  else if 1 < dt.month then
    { dt with second := 59, minute := 59, hour := 23,
              day := daysInMonth dt.year (dt.month - 1),
              month := dt.month - 1 }
  else
    { dt with second := 59, minute := 59, hour := 23, day := 31, month := 12,
              year := dt.year - 1 }

/-- `t.Add(-n * time.Second)`: subtract `n` seconds. -/
def subSeconds (dt : DateTime) : Nat → DateTime
  | 0 => dt
  | n + 1 => predSecond (subSeconds dt n)

/-- The decimal digit character for `n ≤ 9` (larger arguments never occur
once the padding functions apply their modulus). -/
def digitChar (n : Nat) : Char :=
  if n = 0 then '0' else if n = 1 then '1' else if n = 2 then '2'
  else if n = 3 then '3' else if n = 4 then '4' else if n = 5 then '5'
  else if n = 6 then '6' else if n = 7 then '7' else if n = 8 then '8'
  else '9'

/-- Fixed-width zero-padded decimal rendering, most significant digit
first: `padDec k n` is the `k`-character rendering of `n` (mod `10 ^ k`),
as Go's layouts `2006`, `01`, `02`, `15`, `04` render bounded fields. -/
def padDec : Nat → Nat → List Char
  | 0, _ => []
  | k + 1, n => digitChar (n / 10 ^ k % 10) :: padDec k (n % 10 ^ k)

/-- `start.Format("20060102_1504")` of `main.go:87` and `main.go:108`:
the minute-granularity identifier encoding of a timestamp.  The seconds
field does not appear in the layout, so formatting truncates to the
minute. -/
def formatMinute (dt : DateTime) : String :=
  String.mk (padDec 4 dt.year ++ padDec 2 dt.month ++ padDec 2 dt.day
    ++ '_' :: (padDec 2 dt.hour ++ padDec 2 dt.minute))

/-- `fmt.Sprintf("audit_logs_%s", t.Format("20060102_1504"))`: the child
partition table name. -/
def partitionName (dt : DateTime) : String :=
  "audit_logs_" ++ formatMinute dt

/-- A child partition of `audit_logs`: a named table covering the
half-open range `[lo, hi)` of `created_at` values. -/
structure Partition where
  name : String
  lo : DateTime
  hi : DateTime
deriving DecidableEq, Repr

/-- A committed row of the logical table.  `part` records the child
partition the row physically lives in (Postgres routes each inserted row
to the partition covering its `created_at`). -/
structure Row where
  method : String
  created_at : DateTime
  part : String
deriving DecidableEq, Repr

/-- The database state the program observes: whether the parent
`audit_logs` table exists, its child partitions, and the committed rows. -/
structure Schema where
  parentExists : Bool
  partitions : List Partition
  rows : List Row
deriving DecidableEq, Repr

/-- Database errors the model distinguishes.  `transient` stands for any
injected environment failure (connection hiccup, permission denial);
`noParent` and `overlap` are the structural DDL failures of creating a
partition under a missing parent or over an overlapping range. -/
inductive DbErr where
  | transient
  | noParent
  | overlap
deriving DecidableEq, Repr

/-- Outcome of the `CREATE TABLE IF NOT EXISTS ... PARTITION OF`
statement on success. -/
inductive EnsureOutcome where
  | created
  | alreadyExists
deriving DecidableEq, Repr

/-- Outcome of `DROP TABLE IF EXISTS` on success. -/
inductive DropOutcome where
  | dropped
  | notFound
deriving DecidableEq, Repr

/-- Two ranges `[lo₁, hi₁)` and `[lo₂, hi₂)` overlap. -/
def rangesOverlap (p : Partition) (lo hi : DateTime) : Bool :=
  decide (chronLt p.lo hi) && decide (chronLt lo p.hi)

/-- Semantics of the statement issued by `ensurePartition`
(`main.go:89-96`): `CREATE TABLE IF NOT EXISTS name PARTITION OF
audit_logs FOR VALUES FROM (lo) TO (hi)`.  `txFail` injects an
environment failure of the round-trip.  A table of the same name makes
the statement a successful no-op; otherwise creation fails if the parent
is missing or the range overlaps an existing partition. -/
def execCreatePartition (s : Schema) (name : String) (lo hi : DateTime)
    (txFail : Bool) : Schema × Except DbErr EnsureOutcome :=
  if txFail then (s, .error .transient)
  else if s.partitions.any (fun p => p.name = name) then
    (s, .ok .alreadyExists)
  else if ¬ s.parentExists then (s, .error .noParent)
  else if s.partitions.any (fun p => rangesOverlap p lo hi) then
    (s, .error .overlap)
  else ({ s with partitions := ⟨name, lo, hi⟩ :: s.partitions },
        .ok .created)

/-- `ensurePartition` (`main.go:84-103`): truncate the timestamp to the
minute, derive the partition name and range, issue the `CREATE TABLE IF
NOT EXISTS` statement, and return the error (if any) to the caller. -/
def ensurePartition (s : Schema) (t : DateTime) (txFail : Bool) :
    Schema × Except DbErr EnsureOutcome :=
  execCreatePartition s (partitionName (truncMinute t)) (truncMinute t)
    (addOneMinute (truncMinute t)) txFail

/-- Semantics of `DROP TABLE IF EXISTS name CASCADE`: on success the
partition of that name and every row physically stored in it are gone;
an absent table is the successful `notFound` no-op. -/
def execDropTable (s : Schema) (name : String) (txFail : Bool) :
    Schema × Except DbErr DropOutcome :=
  if txFail then (s, .error .transient)
  else if s.partitions.any (fun p => p.name = name) then
    ({ s with partitions := s.partitions.filter (fun p => p.name ≠ name),
              rows := s.rows.filter (fun r => r.part ≠ name) },
     .ok .dropped)
  else (s, .ok .notFound)

/-- `dropOldPartitions` (`main.go:105-116`): compute `cutoff = now -
olderThanSeconds`, format the single target partition name from the
cutoff, and issue `DROP TABLE IF EXISTS`.  The Go function returns
nothing: the statement's error is bound to `err`, used only to decide
whether to print the success line, and discarded — the caller receives
the new state and no error channel. -/
def dropOldPartitions (s : Schema) (now : DateTime) (olderThanSeconds : Nat)
    (txFail : Bool) : Schema :=
  (execDropTable s
    (partitionName (subSeconds now olderThanSeconds)) txFail).1

/-- The name `dropOldPartitions` targets for a given `now` and age. -/
def dropTarget (now : DateTime) (olderThanSeconds : Nat) : String :=
  partitionName (subSeconds now olderThanSeconds)

/-- `resetTable` (`main.go:56-62`): `DROP TABLE IF EXISTS audit_logs
CASCADE` — the parent table, all its child partitions and all rows are
removed (on error the process exits; the model covers the successful
path the program continues from). -/
def resetTable (s : Schema) : Schema :=
  { s with parentExists := false, partitions := [], rows := [] }

/-- `createRootTable` (`main.go:64-79`): create the empty
range-partitioned parent table (after `resetTable` the name is free, so
the plain `CREATE TABLE` succeeds). -/
def createRootTable (s : Schema) : Schema :=
  { s with parentExists := true }

/-- The startup database setup performed by `main` (`main.go:39-43`)
before the periodic tasks begin: `resetTable` then `createRootTable`. -/
def startupSetup (s : Schema) : Schema :=
  createRootTable (resetTable s)

/-- `var methods = []string{...}` (`main.go:15`): the fixed finite set of
method tags. -/
def methods : List String := ["POST", "GET", "DELETE", "PUT", "PATCH"]

/-- Injected environment failures for one run of the batch writer:
failure of `db.Begin`, of `tx.Prepare`, of the `i`-th `stmt.Exec`, or of
`tx.Commit`, plus the failure flag passed down to `ensurePartition`. -/
structure FailSpec where
  ensureFail : Bool
  beginFail : Bool
  prepareFail : Bool
  execFailAt : Option Nat
  commitFail : Bool
deriving DecidableEq, Repr

/-- `[p.lo, p.hi)` contains `t`. -/
def covers (p : Partition) (t : DateTime) : Bool :=
  decide (chronLe p.lo t) && decide (chronLt t p.hi)

/-- Routing of one `INSERT INTO audit_logs (method, created_at)` row
inside the transaction: the row lands in a partition whose range covers
`created_at`; with no covering partition the insert errors. -/
def insertRowTx (s : Schema) (m : String) (t : DateTime) : Option Row :=
  match s.partitions.find? (fun p => covers p t) with
  | some p => some ⟨m, t, p.name⟩
  | none => none

/-- The insert loop of `main.go:155-161`: build the pending rows of the
transaction for indices `i, i+1, ..., i+k-1`, choosing each method tag by
`methods[rand.Intn(len(methods))]` (modelled by the arbitrary choice
function `pick`), aborting on an injected `stmt.Exec` failure or on a row
with no covering partition. -/
def buildBatch (s : Schema) (now : DateTime) (pick : Nat → Fin 5)
    (failAt : Option Nat) : Nat → Nat → Option (List Row)
  | _, 0 => some []
  | i, k + 1 =>
    if failAt = some i then none
    else
      (insertRowTx s (methods.get (pick i)) now).bind (fun r =>
        (buildBatch s now pick failAt (i + 1) k).map (fun rest => r :: rest))

/-- `writeAuditLogsToDbBatch` (`main.go:135-164`): ensure the partition
for `now` exists, then in one transaction insert `amountOfLogs` rows all
stamped `now`; `defer tx.Rollback()` makes any failure after `Begin`
leave no rows behind, and only `tx.Commit` makes the batch visible. -/
def writeAuditLogsToDbBatch (s : Schema) (amountOfLogs : Nat)
    (now : DateTime) (pick : Nat → Fin 5) (fs : FailSpec) :
    Schema × Option DbErr :=
  match ensurePartition s now fs.ensureFail with
  | (s1, .error e) => (s1, some e)
  | (s1, .ok _) =>
    if fs.beginFail then (s1, some .transient)
    else if fs.prepareFail then (s1, some .transient)
    else
      match buildBatch s1 now pick fs.execFailAt 0 amountOfLogs with
      | none => (s1, some .transient)
      | some pending =>
        if fs.commitFail then (s1, some .transient)
        else ({ s1 with rows := s1.rows ++ pending }, none)

/-- Events the cleanup routine's guard reacts to: a ticker tick, and the
completion of an in-flight `dropOldPartitions` sweep (`ok` false when the
underlying drop failed). -/
inductive GuardEv where
  | tick
  | finish (ok : Bool)
deriving DecidableEq, Repr

/-- Observable reaction of the guard to one event. -/
inductive GuardObs where
  | skipped
  | started
  | finished
deriving DecidableEq, Repr

/-- Guard state of `cleanupRoutine` (`main.go:184-209`): the
mutex-protected `isRunning` flag, plus an instrumentation count of the
sweeps currently in flight. -/
structure GuardState where
  isRunning : Bool
  inFlight : Nat
deriving DecidableEq, Repr

/-- The guard state before the first tick: `isRunning := false`. -/
def guardInit : GuardState := ⟨false, 0⟩

/-- One guard transition of `cleanupRoutine`.  On a tick, the critical
section checks `isRunning`: if set, the tick is skipped (`main.go:193-197`)
and no sweep starts; otherwise `isRunning` is set and a sweep starts.  On
sweep completion — whether or not the drop succeeded, since
`dropOldPartitions` reports nothing — `isRunning` is reset
(`main.go:205-207`). -/
def guardStep (g : GuardState) : GuardEv → GuardState × GuardObs
  | .tick =>
    if g.isRunning then (g, .skipped)
    else ({ isRunning := true, inFlight := g.inFlight + 1 }, .started)
  | .finish _ => ({ isRunning := false, inFlight := g.inFlight - 1 },
                  .finished)

/-- The guard state after a sequence of events. -/
def guardRun (g : GuardState) : List GuardEv → GuardState
  | [] => g
  | e :: es => guardRun (guardStep g e).1 es

end AuditLog

namespace Config

/-- The numeric value of a decimal digit character, if it is one. -/
def digitVal (c : Char) : Option Nat :=
  if '0' ≤ c ∧ c ≤ '9' then some (c.toNat - 48) else none

/-- Accumulate a digit string into a number; any non-digit fails. -/
def parseNatAux : List Char → Nat → Option Nat
  | [], acc => some acc
  | c :: cs, acc =>
    match digitVal c with
    | some d => parseNatAux cs (acc * 10 + d)
    | none => none

/-- Parse a non-empty digit string. -/
def parseNat (l : List Char) : Option Nat :=
  match l with
  | [] => none
  | _ => parseNatAux l 0

/-- `strconv.Atoi` on the inputs this program meets: an optional sign
followed by a non-empty digit string; anything else (in particular the
empty string of an unset variable) fails. -/
def parseInt (s : String) : Option Int :=
  match s.data with
  | '-' :: rest => (parseNat rest).map (fun n => -(n : Int))
  | '+' :: rest => (parseNat rest).map (fun n => (n : Int))
  | l => (parseNat l).map (fun n => (n : Int))

/-- Parse an unsigned decimal literal `digits` or `digits.digits` as an
exact rational. -/
def parseUnsignedDec (l : List Char) : Option ℚ :=
  match l.splitOn '.' with
  | [ip] => (parseNat ip).map (fun n => (n : ℚ))
  | [ip, fp] =>
    match parseNat ip, parseNat fp with
    | some n, some f => some ((n : ℚ) + (f : ℚ) / (10 : ℚ) ^ fp.length)
    | _, _ => none
  | _ => none

/-- `strconv.ParseFloat` on the inputs this program meets: an optional
sign followed by a decimal literal; anything else (in particular the
empty string of an unset variable) fails. -/
def parseFloat (s : String) : Option ℚ :=
  match s.data with
  | '-' :: rest => (parseUnsignedDec rest).map (fun q => -q)
  | '+' :: rest => parseUnsignedDec rest
  | l => parseUnsignedDec l

/-- The process environment as `os.Getenv` exposes it: a total map from
variable name to value, with `""` for an unset variable. -/
def Env : Type := String → String

/-- `getEnv` (`config/config.go:86-91`): the value if non-empty, else the
default. -/
def getEnv (env : Env) (key defaultValue : String) : String :=
  if env key ≠ "" then env key else defaultValue

/-- `getEnvAsInt` (`config/config.go:93-99`). -/
def getEnvAsInt (env : Env) (key : String) : Option Int :=
  parseInt (env key)

/-- `getEnvAsFloat` (`config/config.go:101-107`). -/
def getEnvAsFloat (env : Env) (key : String) : Option ℚ :=
  parseFloat (env key)

/-- `DatabaseConfig` (`config/config.go:17-24`). -/
structure DatabaseConfig where
  host : String
  port : Int
  user : String
  password : String
  dbname : String
  sslmode : String
deriving DecidableEq, Repr

/-- `TimingConfig` (`config/config.go:26-29`). -/
structure TimingConfig where
  cleanupIntervalSeconds : ℚ
  maxLogAgeSeconds : Int
deriving DecidableEq, Repr

/-- `Config` (`config/config.go:12-15`). -/
structure Config where
  database : DatabaseConfig
  timing : TimingConfig
deriving DecidableEq, Repr

/-- The error cases `Load` can return, in the order the Go code checks
them. -/
inductive LoadError where
  | badCleanupInterval
  | badMaxLogAge
  | badPort
deriving DecidableEq, Repr

/-- `Load` (`config/config.go:32-67`): each timing or port variable that
fails to parse aborts loading with an error — there is no fallback to a
default for these values. -/
def Load (env : Env) : Except LoadError Config :=
  match getEnvAsFloat env "CLEANUP_INTERVAL_SECONDS" with
  | none => .error .badCleanupInterval
  | some cleanupInterval =>
    match getEnvAsInt env "MAX_LOG_AGE_SECONDS" with
    | none => .error .badMaxLogAge
    | some maxLogAge =>
      match getEnvAsInt env "POSTGRES_PORT" with
      | none => .error .badPort
      | some port =>
        .ok
          { database :=
              { host := getEnv env "POSTGRES_HOST" "localhost"
                port := port
                user := getEnv env "POSTGRES_USER" "user"
                password := getEnv env "POSTGRES_PASSWORD" "password"
                dbname := getEnv env "POSTGRES_DB" "auditlogs"
                sslmode := getEnv env "POSTGRES_SSL_MODE" "disable" }
            timing :=
              { cleanupIntervalSeconds := cleanupInterval
                maxLogAgeSeconds := maxLogAge } }

/-- What `main` (`main.go:20-26`) does with the loading outcome:
`log.Fatal` terminates the process on error. -/
inductive StartOutcome where
  | fatal
  | started (cfg : Config)
deriving DecidableEq, Repr

/-- The configuration phase of `main` (`main.go:20-26`). -/
def mainConfigPhase (env : Env) : StartOutcome :=
  match Load env with
  | .error _ => .fatal
  | .ok cfg => .started cfg

/-- The legacy single-file variant's insert-interval fallback: on a parse
error `insertInterval` stays `0`, so the `err != nil || insertInterval <=
0` check replaces any bad or non-positive value with the default `5.0`. -/
def legacyInsertInterval (env : Env) : ℚ :=
  match parseFloat (env "INSERT_INTERVAL_SECONDS") with
  | none => 5
  | some v => if v ≤ 0 then 5 else v

/-- The legacy single-file variant's cleanup-interval fallback to the
default `60.0`. -/
def legacyCleanupInterval (env : Env) : ℚ :=
  match parseFloat (env "CLEANUP_INTERVAL_SECONDS") with
  | none => 60
  | some v => if v ≤ 0 then 60 else v

/-- The legacy single-file variant's max-age fallback to the default
`30`. -/
def legacyMaxLogAge (env : Env) : Int :=
  match parseInt (env "MAX_LOG_AGE_SECONDS") with
  | none => 30
  | some v => if v ≤ 0 then 30 else v

end Config

/-! ## Helper lemmas -/

namespace AuditLog

theorem digitChar_lt_iff : ∀ a < 10, ∀ b < 10, (digitChar a < digitChar b ↔ a < b) := by decide

theorem digitChar_eq_iff : ∀ a < 10, ∀ b < 10, (digitChar a = digitChar b ↔ a = b) := by decide

theorem digitChar_isDigit (n : Nat) : (digitChar n).isDigit = true := by
  unfold digitChar
  split_ifs <;> decide

theorem padDec_length : ∀ (k n : Nat), (padDec k n).length = k := by
  intro k
  induction k with
  | zero => intro n; rfl
  | succ k ih => intro n; simp [padDec, ih]

theorem padDec_isDigit : ∀ (k n : Nat), ∀ c ∈ padDec k n, c.isDigit = true := by
  intro k
  induction k with
  | zero => intro n c hc; simp [padDec] at hc
  | succ k ih =>
    intro n c hc
    simp only [padDec, List.mem_cons] at hc
    rcases hc with rfl | hc
    · exact digitChar_isDigit _
    · exact ih _ c hc

theorem cons_lt_iff (a b : Char) (as bs : List Char) :
    (a :: as : List Char) < (b :: bs) ↔ a < b ∨ (a = b ∧ as < bs) := by
  constructor
  · intro h
    cases h with
    | rel h1 => exact .inl h1
    | cons h1 => exact .inr ⟨rfl, h1⟩
  · rintro (h | ⟨rfl, h⟩)
    · exact List.Lex.rel h
    · exact List.Lex.cons h

theorem nil_not_lt_nil : ¬ (([] : List Char) < []) := by
  intro h; cases h

theorem append_lt_append : ∀ (xs ys as bs : List Char), xs.length = ys.length →
    ((xs ++ as) < (ys ++ bs) ↔ xs < ys ∨ (xs = ys ∧ as < bs)) := by
  intro xs
  induction xs with
  | nil =>
    intro ys as bs hlen
    cases ys with
    | nil => simp [nil_not_lt_nil]
    | cons y ys' => simp at hlen
  | cons x xs' ih =>
    intro ys as bs hlen
    cases ys with
    | nil => simp at hlen
    | cons y ys' =>
      simp only [List.length_cons, Nat.add_right_cancel_iff] at hlen
      simp only [List.cons_append]
      rw [cons_lt_iff, cons_lt_iff, ih ys' as bs hlen]
      constructor
      · rintro (h | ⟨rfl, h | ⟨rfl, h⟩⟩)
        · exact .inl (.inl h)
        · exact .inl (.inr ⟨rfl, h⟩)
        · exact .inr ⟨rfl, h⟩
      · rintro ((h | ⟨rfl, h⟩) | ⟨heq, h⟩)
        · exact .inl h
        · exact .inr ⟨rfl, .inl h⟩
        · rw [List.cons.injEq] at heq
          exact .inr ⟨heq.1, .inr ⟨heq.2, h⟩⟩

theorem lt_iff_div_lt_or (a b c : Nat) (hc : 0 < c) :
    a < b ↔ (a / c < b / c ∨ (a / c = b / c ∧ a % c < b % c)) := by
  have e1 := Nat.div_add_mod a c
  have e2 := Nat.div_add_mod b c
  have h3 : a % c < c := Nat.mod_lt _ hc
  have h4 : b % c < c := Nat.mod_lt _ hc
  constructor
  · intro h
    rcases Nat.lt_or_ge (a / c) (b / c) with h1 | h1
    · exact .inl h1
    rcases Nat.lt_or_ge (b / c) (a / c) with h2 | h2
    · exfalso
      have h6 : c * (b / c + 1) ≤ c * (a / c) := Nat.mul_le_mul_left c h2
      rw [Nat.mul_succ] at h6
      generalize c * (a / c) = t1 at e1 h6
      generalize c * (b / c) = t2 at e2 h6
      omega
    have h7 : a / c = b / c := le_antisymm h2 h1
    refine .inr ⟨h7, ?_⟩
    rw [h7] at e1
    generalize c * (b / c) = t at e1 e2
    omega
  · rintro (h | ⟨h7, h5⟩)
    · have h6 : c * (a / c + 1) ≤ c * (b / c) := Nat.mul_le_mul_left c h
      rw [Nat.mul_succ] at h6
      generalize c * (a / c) = t1 at e1 h6
      generalize c * (b / c) = t2 at e2 h6
      omega
    · rw [h7] at e1
      generalize c * (b / c) = t at e1 e2
      omega

theorem padDec_lt_iff : ∀ (k a b : Nat), a < 10 ^ k → b < 10 ^ k →
    (padDec k a < padDec k b ↔ a < b) := by
  intro k
  induction k with
  | zero =>
    intro a b ha hb
    have ha0 : a = 0 := by omega
    have hb0 : b = 0 := by omega
    subst ha0; subst hb0
    simp [padDec, nil_not_lt_nil]
  | succ k ih =>
    intro a b ha hb
    have hp : 0 < 10 ^ k := Nat.pos_pow_of_pos k (by omega)
    have hda : a / 10 ^ k < 10 := by
      apply Nat.div_lt_of_lt_mul
      rw [← pow_succ]
      exact ha
    have hdb : b / 10 ^ k < 10 := by
      apply Nat.div_lt_of_lt_mul
      rw [← pow_succ]
      exact hb
    simp only [padDec]
    rw [cons_lt_iff, Nat.mod_eq_of_lt hda, Nat.mod_eq_of_lt hdb,
        digitChar_lt_iff _ hda _ hdb, digitChar_eq_iff _ hda _ hdb,
        ih _ _ (Nat.mod_lt _ hp) (Nat.mod_lt _ hp)]
    exact (lt_iff_div_lt_or a b (10 ^ k) hp).symm

theorem padDec_eq_iff : ∀ (k a b : Nat), a < 10 ^ k → b < 10 ^ k →
    (padDec k a = padDec k b ↔ a = b) := by
  intro k a b ha hb
  constructor
  · intro h
    by_contra hne
    rcases Nat.lt_or_ge a b with h1 | h1
    · rw [← padDec_lt_iff k a b ha hb, h] at h1
      exact absurd h1 (irrefl _)
    · have h2 : b < a := by omega
      rw [← padDec_lt_iff k b a hb ha, h] at h2
      exact absurd h2 (irrefl _)
  · intro h; rw [h]

/-- The minute-granularity chronological key. -/
def minuteKey (dt : DateTime) : Nat :=
  (((dt.year * 100 + dt.month) * 100 + dt.day) * 100 + dt.hour) * 100
    + dt.minute

theorem daysInMonth_le_31 (y m : Nat) : daysInMonth y m ≤ 31 := by
  unfold daysInMonth
  split_ifs <;> omega

theorem underscore_cons_lt_iff (as bs : List Char) :
    ('_' :: as : List Char) < ('_' :: bs) ↔ as < bs := by
  rw [cons_lt_iff]
  simp [lt_irrefl]

theorem formatMinute_lt_iff (a b : DateTime) (ha : Valid a) (hb : Valid b) :
    (formatMinute a < formatMinute b ↔ minuteKey a < minuteKey b) := by
  obtain ⟨ha1, ha2, ha3, ha4, ha5, ha6, ha7, ha8, ha9⟩ := ha
  obtain ⟨hb1, hb2, hb3, hb4, hb5, hb6, hb7, hb8, hb9⟩ := hb
  have hay : a.year < 10 ^ 4 := by omega
  have hby : b.year < 10 ^ 4 := by omega
  have ham : a.month < 10 ^ 2 := by omega
  have hbm : b.month < 10 ^ 2 := by omega
  have had : a.day < 10 ^ 2 := by
    have := daysInMonth_le_31 a.year a.month; omega
  have hbd : b.day < 10 ^ 2 := by
    have := daysInMonth_le_31 b.year b.month; omega
  have hah : a.hour < 10 ^ 2 := by omega
  have hbh : b.hour < 10 ^ 2 := by omega
  have hami : a.minute < 10 ^ 2 := by omega
  have hbmi : b.minute < 10 ^ 2 := by omega
  have hd : daysInMonth a.year a.month ≤ 31 := daysInMonth_le_31 _ _
  have hd2 : daysInMonth b.year b.month ≤ 31 := daysInMonth_le_31 _ _
  rw [String.lt_iff_toList_lt]
  show (padDec 4 a.year ++ (padDec 2 a.month ++ (padDec 2 a.day
      ++ '_' :: (padDec 2 a.hour ++ padDec 2 a.minute))))
    < (padDec 4 b.year ++ (padDec 2 b.month ++ (padDec 2 b.day
      ++ '_' :: (padDec 2 b.hour ++ padDec 2 b.minute)))) ↔ _
  rw [append_lt_append _ _ _ _ (by rw [padDec_length, padDec_length]),
      append_lt_append _ _ _ _ (by rw [padDec_length, padDec_length]),
      append_lt_append _ _ _ _ (by rw [padDec_length, padDec_length]),
      underscore_cons_lt_iff,
      append_lt_append _ _ _ _ (by rw [padDec_length, padDec_length]),
      padDec_lt_iff _ _ _ hay hby, padDec_eq_iff _ _ _ hay hby,
      padDec_lt_iff _ _ _ ham hbm, padDec_eq_iff _ _ _ ham hbm,
      padDec_lt_iff _ _ _ had hbd, padDec_eq_iff _ _ _ had hbd,
      padDec_lt_iff _ _ _ hah hbh, padDec_eq_iff _ _ _ hah hbh,
      padDec_lt_iff _ _ _ hami hbmi]
  unfold minuteKey
  omega

theorem formatMinute_inj (a b : DateTime) (ha : Valid a) (hb : Valid b)
    (ha0 : a.second = 0) (hb0 : b.second = 0)
    (h : formatMinute a = formatMinute b) : a = b := by
  have h1 : ¬ minuteKey a < minuteKey b := by
    rw [← formatMinute_lt_iff a b ha hb, h]
    exact irrefl _
  have h2 : ¬ minuteKey b < minuteKey a := by
    rw [← formatMinute_lt_iff b a hb ha, h]
    exact irrefl _
  obtain ⟨ha1, ha2, ha3, ha4, ha5, ha6, ha7, ha8, ha9⟩ := ha
  obtain ⟨hb1, hb2, hb3, hb4, hb5, hb6, hb7, hb8, hb9⟩ := hb
  have hd : daysInMonth a.year a.month ≤ 31 := daysInMonth_le_31 _ _
  have hd2 : daysInMonth b.year b.month ≤ 31 := daysInMonth_le_31 _ _
  unfold minuteKey at h1 h2
  cases a; cases b
  simp only at *
  congr 1 <;> omega

theorem ensure_rows (s : Schema) (t : DateTime) (f : Bool) :
    (ensurePartition s t f).1.rows = s.rows := by
  unfold ensurePartition execCreatePartition
  split_ifs <;> rfl

theorem ensure_error_state (s : Schema) (t : DateTime) (f : Bool) (e : DbErr)
    (h : (ensurePartition s t f).2 = .error e) : (ensurePartition s t f).1 = s := by
  unfold ensurePartition execCreatePartition at h ⊢
  split_ifs at h ⊢ <;> first | rfl | simp at h

theorem buildBatch_zero (s : Schema) (now : DateTime) (pick : Nat → Fin 5)
    (failAt : Option Nat) (i : Nat) :
    buildBatch s now pick failAt i 0 = some [] := rfl

theorem buildBatch_succ (s : Schema) (now : DateTime) (pick : Nat → Fin 5)
    (failAt : Option Nat) (i k : Nat) :
    buildBatch s now pick failAt i (k + 1) =
      (if failAt = some i then none
       else (insertRowTx s (methods.get (pick i)) now).bind (fun r =>
          (buildBatch s now pick failAt (i + 1) k).map
            (fun rest => r :: rest))) := rfl

theorem buildBatch_some : ∀ (k i : Nat) (s : Schema) (now : DateTime)
    (pick : Nat → Fin 5) (failAt : Option Nat) (pending : List Row),
    buildBatch s now pick failAt i k = some pending →
    pending.length = k ∧
      ∀ r ∈ pending, r.created_at = now ∧ r.method ∈ methods ∧
        ∃ p, s.partitions.find? (fun p => covers p now) = some p ∧
          r.part = p.name := by
  intro k
  induction k with
  | zero =>
    intro i s now pick failAt pending h
    rw [buildBatch_zero] at h
    simp only [Option.some.injEq] at h
    subst h
    exact ⟨rfl, fun r hr => absurd hr (List.not_mem_nil r)⟩
  | succ k ih =>
    intro i s now pick failAt pending h
    rw [buildBatch_succ] at h
    split_ifs at h
    rcases h1 : insertRowTx s (methods.get (pick i)) now with _ | r
    · rw [h1] at h; simp at h
    · rw [h1] at h
      rcases h2 : buildBatch s now pick failAt (i + 1) k with _ | rest
      · rw [h2] at h; simp at h
      · rw [h2] at h
        simp only [Option.some_bind, Option.map_some', Option.some.injEq] at h
        subst h
        obtain ⟨ihlen, ihrows⟩ := ih (i + 1) s now pick failAt rest h2
        refine ⟨by simp [ihlen], ?_⟩
        intro r2 hr2
        rcases List.mem_cons.1 hr2 with rfl | hmem
        · unfold insertRowTx at h1
          rcases h3 : s.partitions.find? (fun p => covers p now) with _ | p
          · rw [h3] at h1; simp at h1
          · rw [h3] at h1
            simp only [Option.some.injEq] at h1
            subst h1
            exact ⟨rfl, List.get_mem methods (pick i).1 (pick i).2, p, rfl, rfl⟩
        · exact ihrows r2 hmem

end AuditLog

/-! ## Claim theorems -/

namespace AuditLog

/-- A sample pre-existing database state: the parent table, one child
partition for the 12:05 bucket of 2024-01-01, and one committed row. -/
def demoSchema : Schema :=
  { parentExists := true
    partitions := [⟨"audit_logs_20240101_1205", ⟨2024, 1, 1, 12, 5, 0⟩,
      ⟨2024, 1, 1, 12, 6, 0⟩⟩]
    rows := [⟨"GET", ⟨2024, 1, 1, 12, 5, 30⟩, "audit_logs_20240101_1205"⟩] }

/-- C2, counterexample: startup does not leave a pre-existing `audit_logs`
table unchanged — `main` calls `resetTable` (DROP ... CASCADE) and
`createRootTable` before the periodic tasks begin, so the pre-existing
partition and row of `demoSchema` are destroyed. -/
theorem C2_counterexample :
    (startupSetup demoSchema).rows = [] ∧
    (startupSetup demoSchema).partitions = [] ∧
    startupSetup demoSchema ≠ demoSchema := by
  refine ⟨rfl, rfl, ?_⟩
  intro h
  have h2 := congrArg Schema.rows h
  simp [startupSetup, resetTable, createRootTable, demoSchema] at h2

/-- C2, amended: on startup the core drops any pre-existing `audit_logs`
table (discarding all its partitions and rows) and re-creates an empty
parent table, so the periodic tasks always start from an empty parent
with no partitions and no rows. -/
theorem C2_amended (s : Schema) :
    startupSetup s = { parentExists := true, partitions := [], rows := [] } :=
  rfl

/-- C6: the partition bounds derived by `ensurePartition` satisfy
`start <= t < end`: `start` is `t` truncated down to the minute (no
rounding) and `end` is `start` plus one minute. -/
theorem C6_derive_bounds (t : DateTime) (ht : Valid t) :
    chronLe (truncMinute t) t ∧ chronLt t (addOneMinute (truncMinute t)) := by
  obtain ⟨h1, h2, h3, h4, h5, h6, h7, h8, h9⟩ := ht
  have hd := daysInMonth_le_31 t.year t.month
  unfold chronLe chronLt chronKey truncMinute addOneMinute
  simp only
  split_ifs <;> simp_all <;> omega

/-- C6, witness. -/
theorem C6_derive_bounds_witness :
    Valid ⟨2024, 1, 1, 12, 5, 30⟩ ∧
      (chronLe (truncMinute ⟨2024, 1, 1, 12, 5, 30⟩) ⟨2024, 1, 1, 12, 5, 30⟩ ∧
       chronLt ⟨2024, 1, 1, 12, 5, 30⟩
         (addOneMinute (truncMinute ⟨2024, 1, 1, 12, 5, 30⟩))) :=
  ⟨by decide, C6_derive_bounds ⟨2024, 1, 1, 12, 5, 30⟩ (by decide)⟩

/-- C7: `ensurePartition` is idempotent — a second call with the same
timestamp leaves the schema exactly as after the first call, and when the
first call succeeded the second reports `alreadyExists` rather than
erroring. -/
theorem C7_ensure_idempotent (s : Schema) (t : DateTime) :
    (ensurePartition (ensurePartition s t false).1 t false).1
        = (ensurePartition s t false).1 ∧
    ((∃ o, (ensurePartition s t false).2 = .ok o) →
      (ensurePartition (ensurePartition s t false).1 t false).2
          = .ok .alreadyExists) := by
  unfold ensurePartition execCreatePartition
  simp only [Bool.false_eq_true, if_false]
  by_cases h1 : s.partitions.any
      (fun p => p.name = partitionName (truncMinute t))
  · simp [h1]
  · by_cases h2 : s.parentExists
    · by_cases h3 : s.partitions.any
          (fun p => rangesOverlap p (truncMinute t) (addOneMinute (truncMinute t)))
      · simp [h1, h2, h3]
      · simp [h1, h2, h3]
    · simp [h1, h2]

/-- C7, witness: on the empty parent the first call creates the partition
and the second reports `alreadyExists`. -/
theorem C7_ensure_idempotent_witness :
    (ensurePartition
        (ensurePartition ⟨true, [], []⟩ ⟨2024, 1, 1, 12, 5, 30⟩ false).1
        ⟨2024, 1, 1, 12, 5, 30⟩ false).2 = .ok .alreadyExists :=
  (C7_ensure_idempotent ⟨true, [], []⟩ ⟨2024, 1, 1, 12, 5, 30⟩).2
    ⟨.created, rfl⟩

/-- C8, counterexample: an injected failure of the `DROP TABLE` statement
is not surfaced by `dropOldPartitions` — the statement errors, yet the Go
function (which returns nothing and discards `err`) leaves its caller
with an unchanged schema and no error indication at all. -/
theorem C8_counterexample :
    (execDropTable demoSchema (dropTarget ⟨2024, 1, 1, 12, 5, 45⟩ 30) true).2
        = Except.error DbErr.transient ∧
    dropOldPartitions demoSchema ⟨2024, 1, 1, 12, 5, 45⟩ 30 true
        = demoSchema := by
  constructor
  · rfl
  · rfl

/-- C8, amended: `ensurePartition` surfaces unexpected database errors to
its caller with the schema unchanged, and a retire of an absent partition
is the expected-path `notFound` non-error; but `dropOldPartitions` does
not surface unexpected errors — it returns only the (unchanged) schema
and discards the statement error. -/
theorem C8_amended (s : Schema) (t now : DateTime) (age : Nat) :
    ((ensurePartition s t true).2 = .error .transient ∧
      (ensurePartition s t true).1 = s) ∧
    ((s.partitions.all (fun p => p.name ≠ dropTarget now age)) = true →
      (execDropTable s (dropTarget now age) false).2 = .ok .notFound ∧
      dropOldPartitions s now age false = s) ∧
    dropOldPartitions s now age true = s := by
  refine ⟨⟨rfl, rfl⟩, ?_, rfl⟩
  intro h
  have hany : s.partitions.any (fun p => p.name = dropTarget now age) = false := by
    rw [List.any_eq_false]
    intro p hp
    have := List.all_eq_true.1 h p hp
    simpa using this
  unfold dropOldPartitions execDropTable
  rw [show partitionName (subSeconds now age) = dropTarget now age from rfl]
  simp [hany]

/-- C8, witness for the amended claim. -/
theorem C8_amended_witness :
    ((ensurePartition ⟨true, [], []⟩ ⟨2024, 1, 1, 12, 5, 30⟩ true).2
        = .error .transient ∧
      (ensurePartition ⟨true, [], []⟩ ⟨2024, 1, 1, 12, 5, 30⟩ true).1
        = ⟨true, [], []⟩) ∧
    ((execDropTable (⟨true, [], []⟩ : Schema)
        (dropTarget ⟨2024, 1, 1, 12, 10, 0⟩ 30) false).2 = .ok .notFound ∧
      dropOldPartitions ⟨true, [], []⟩ ⟨2024, 1, 1, 12, 10, 0⟩ 30 false
        = ⟨true, [], []⟩) ∧
    dropOldPartitions ⟨true, [], []⟩ ⟨2024, 1, 1, 12, 10, 0⟩ 30 true
        = ⟨true, [], []⟩ := by
  obtain ⟨w1, w2, w3⟩ :=
    C8_amended ⟨true, [], []⟩ ⟨2024, 1, 1, 12, 5, 30⟩ ⟨2024, 1, 1, 12, 10, 0⟩ 30
  exact ⟨w1, w2 (by decide), w3⟩

end AuditLog

namespace Config

/-- C5, counterexample: with every environment variable unset (the
`os.Getenv` result is `""` everywhere), `Load` fails on the cleanup
interval and `main` terminates via `log.Fatal` — it does not proceed
with defaults. -/
theorem C5_counterexample :
    mainConfigPhase (fun _ => "") = StartOutcome.fatal ∧
    Load (fun _ => "") = Except.error LoadError.badCleanupInterval :=
  ⟨rfl, rfl⟩

/-- C5, amended: the current loader (`config/config.go`) is fatal on a
bad cleanup-interval or max-age value — `Load` returns an error and
startup terminates instead of applying a default; only the legacy
single-file variant falls back to the documented defaults (insertion
interval 5.0 s, retention sweep interval 60.0 s, max log age 30 s) for
absent, invalid or non-positive values. -/
theorem C5_amended :
    (∀ env : Env, getEnvAsFloat env "CLEANUP_INTERVAL_SECONDS" = none →
      mainConfigPhase env = StartOutcome.fatal) ∧
    (∀ env : Env, ∀ q : ℚ,
      getEnvAsFloat env "CLEANUP_INTERVAL_SECONDS" = some q →
      getEnvAsInt env "MAX_LOG_AGE_SECONDS" = none →
      mainConfigPhase env = StartOutcome.fatal) ∧
    (∀ env : Env, parseFloat (env "INSERT_INTERVAL_SECONDS") = none ∨
        (∃ v, parseFloat (env "INSERT_INTERVAL_SECONDS") = some v ∧ v ≤ 0) →
      legacyInsertInterval env = 5) ∧
    (∀ env : Env, parseFloat (env "CLEANUP_INTERVAL_SECONDS") = none ∨
        (∃ v, parseFloat (env "CLEANUP_INTERVAL_SECONDS") = some v ∧ v ≤ 0) →
      legacyCleanupInterval env = 60) ∧
    (∀ env : Env, parseInt (env "MAX_LOG_AGE_SECONDS") = none ∨
        (∃ v, parseInt (env "MAX_LOG_AGE_SECONDS") = some v ∧ v ≤ 0) →
      legacyMaxLogAge env = 30) := by
  refine ⟨?_, ?_, ?_, ?_, ?_⟩
  · intro env h
    unfold mainConfigPhase Load
    rw [h]
  · intro env q h1 h2
    unfold mainConfigPhase Load
    rw [h1, h2]
  · intro env h
    unfold legacyInsertInterval
    rcases h with h | ⟨v, hv, hle⟩
    · rw [h]
    · rw [hv]; simp [hle]
  · intro env h
    unfold legacyCleanupInterval
    rcases h with h | ⟨v, hv, hle⟩
    · rw [h]
    · rw [hv]; simp [hle]
  · intro env h
    unfold legacyMaxLogAge
    rcases h with h | ⟨v, hv, hle⟩
    · rw [h]
    · rw [hv]; simp [hle]

/-- C5, witness for the amended claim: a concrete environment with an
invalid cleanup interval is fatal for the current loader, while the
legacy fallbacks yield 5.0, 60.0 and 30 on invalid or non-positive
values. -/
theorem C5_amended_witness :
    mainConfigPhase (fun _ => "abc") = StartOutcome.fatal ∧
    legacyInsertInterval (fun _ => "abc") = 5 ∧
    legacyCleanupInterval (fun _ => "-2") = 60 ∧
    legacyMaxLogAge (fun _ => "0") = 30 := by
  obtain ⟨w1, _, w3, w4, w5⟩ := C5_amended
  refine ⟨w1 _ rfl, w3 _ (Or.inl rfl), w4 _ (Or.inr ⟨-(2 : ℚ), by decide, by decide⟩),
    w5 _ (Or.inr ⟨0, rfl, le_refl 0⟩)⟩

end Config

namespace AuditLog

/-- C10: for every valid timestamp, the partition table name interpolated
into the DDL has the fixed shape `audit_logs_` + 8 digits + `_` +
4 digits, and contains only letters, digits and underscores — so the
generated `CREATE TABLE` / `DROP TABLE` statement keeps its intended
single-statement shape. -/
theorem C10_name_shape (dt : DateTime) (h : Valid dt) :
    ∃ d8 d4 : List Char,
      (partitionName dt).data = "audit_logs_".data ++ (d8 ++ '_' :: d4) ∧
      d8.length = 8 ∧ d4.length = 4 ∧
      (∀ c ∈ d8, c.isDigit = true) ∧
      (∀ c ∈ d4, c.isDigit = true) ∧
      (∀ c ∈ (partitionName dt).data, c.isAlphanum = true ∨ c = '_') := by
  refine ⟨padDec 4 dt.year ++ padDec 2 dt.month ++ padDec 2 dt.day,
    padDec 2 dt.hour ++ padDec 2 dt.minute, ?_, ?_, ?_, ?_, ?_, ?_⟩
  · show ("audit_logs_" ++ formatMinute dt).data = _
    rw [String.data_append]
    unfold formatMinute
    simp [List.append_assoc]
  · simp [padDec_length]
  · simp [padDec_length]
  · intro c hc
    rcases List.mem_append.1 hc with hc2 | hc2
    · rcases List.mem_append.1 hc2 with hc3 | hc3
      · exact padDec_isDigit _ _ c hc3
      · exact padDec_isDigit _ _ c hc3
    · exact padDec_isDigit _ _ c hc2
  · intro c hc
    rcases List.mem_append.1 hc with hc2 | hc2
    · exact padDec_isDigit _ _ c hc2
    · exact padDec_isDigit _ _ c hc2
  · intro c hc
    unfold partitionName at hc
    rw [String.data_append] at hc
    rcases List.mem_append.1 hc with hc2 | hc2
    · fin_cases hc2 <;> decide
    · unfold formatMinute at hc2
      have hdig : ∀ x ∈ (padDec 4 dt.year ++ padDec 2 dt.month
          ++ padDec 2 dt.day ++ '_' :: (padDec 2 dt.hour ++ padDec 2 dt.minute)),
          x.isDigit = true ∨ x = '_' := by
        intro x hx
        rcases List.mem_append.1 hx with h3 | h3
        · rcases List.mem_append.1 h3 with h4 | h4
          · rcases List.mem_append.1 h4 with h5 | h5
            · exact .inl (padDec_isDigit _ _ x h5)
            · exact .inl (padDec_isDigit _ _ x h5)
          · exact .inl (padDec_isDigit _ _ x h4)
        · rcases List.mem_cons.1 h3 with rfl | h4
          · exact .inr rfl
          · rcases List.mem_append.1 h4 with h5 | h5
            · exact .inl (padDec_isDigit _ _ x h5)
            · exact .inl (padDec_isDigit _ _ x h5)
      rcases hdig c hc2 with hd | hd
      · left
        have : Char.isAlphanum c = (c.isAlpha || c.isDigit) := rfl
        rw [this, hd, Bool.or_true]
      · right; exact hd

/-- C10, witness. -/
theorem C10_name_shape_witness :
    Valid ⟨2024, 1, 1, 12, 5, 0⟩ ∧
    (∃ d8 d4 : List Char,
      (partitionName ⟨2024, 1, 1, 12, 5, 0⟩).data
          = "audit_logs_".data ++ (d8 ++ '_' :: d4) ∧
      d8.length = 8 ∧ d4.length = 4 ∧
      (∀ c ∈ d8, c.isDigit = true) ∧
      (∀ c ∈ d4, c.isDigit = true) ∧
      (∀ c ∈ (partitionName ⟨2024, 1, 1, 12, 5, 0⟩).data,
        c.isAlphanum = true ∨ c = '_')) :=
  ⟨by decide, C10_name_shape ⟨2024, 1, 1, 12, 5, 0⟩ (by decide)⟩

/-- The single-flight invariant of the cleanup guard: the number of
in-flight sweeps always matches the `isRunning` flag. -/
theorem guard_invariant : ∀ (evs : List GuardEv) (g : GuardState),
    g.inFlight = (if g.isRunning then 1 else 0) →
    (guardRun g evs).inFlight
        = (if (guardRun g evs).isRunning then 1 else 0) := by
  intro evs
  induction evs with
  | nil => intro g h; exact h
  | cons e es ih =>
    intro g h
    show (guardRun (guardStep g e).1 es).inFlight = _
    apply ih
    cases e with
    | tick =>
      unfold guardStep
      by_cases hr : g.isRunning <;> simp_all
    | finish ok =>
      unfold guardStep
      by_cases hr : g.isRunning <;> simp_all

/-- C3: the retention task never runs two sweeps concurrently — a tick
that fires while `isRunning` is set is observed as skipped with the state
unchanged (no second sweep starts); completion of a sweep resets
`isRunning` whether or not the drop succeeded; and along every event
trace from the initial state at most one sweep is ever in flight. -/
theorem C3_guard_single_flight (g : GuardState) (ok : Bool)
    (evs : List GuardEv) :
    (g.isRunning = true → guardStep g .tick = (g, .skipped)) ∧
    (guardStep g (.finish ok)).1.isRunning = false ∧
    (guardRun guardInit evs).inFlight ≤ 1 := by
  refine ⟨?_, rfl, ?_⟩
  · intro h
    unfold guardStep
    rw [h]
    rfl
  · have := guard_invariant evs guardInit rfl
    rw [this]
    split_ifs <;> omega

/-- C3, witness: with a sweep in flight the next tick is skipped; a
failed sweep still frees the guard; a double tick before completion
leaves at most one sweep in flight. -/
theorem C3_guard_single_flight_witness :
    guardStep ⟨true, 1⟩ .tick = (⟨true, 1⟩, .skipped) ∧
    (guardStep ⟨true, 1⟩ (.finish false)).1.isRunning = false ∧
    (guardRun guardInit [.tick, .tick, .finish false]).inFlight ≤ 1 := by
  obtain ⟨w1, w2, w3⟩ :=
    C3_guard_single_flight ⟨true, 1⟩ false [.tick, .tick, .finish false]
  exact ⟨w1 rfl, w2, w3⟩

end AuditLog

namespace AuditLog

/-- `partitionName` is injective on valid minute-truncated timestamps. -/
theorem partitionName_inj (a b : DateTime) (ha : Valid a) (hb : Valid b)
    (ha0 : a.second = 0) (hb0 : b.second = 0)
    (h : partitionName a = partitionName b) : a = b := by
  apply formatMinute_inj a b ha hb ha0 hb0
  have h2 := congrArg String.data h
  unfold partitionName at h2
  rw [String.data_append, String.data_append] at h2
  have h3 := List.append_cancel_left h2
  cases hfa : formatMinute a
  cases hfb : formatMinute b
  rw [hfa, hfb] at h3
  simp only at h3
  rw [h3]

/-- Formatting ignores the seconds field. -/
theorem formatMinute_truncMinute (dt : DateTime) :
    formatMinute (truncMinute dt) = formatMinute dt := rfl

/-- C9: the partition identifier encoding (the fixed-width
year-month-day-hour-minute rendering of `start`) is injective and
order-preserving on valid minute-truncated timestamps: distinct `start`
values get distinct identifiers, and lexicographic string comparison of
identifiers agrees with chronological order. -/
theorem C9_identifier_inj_and_monotone (a b : DateTime)
    (ha : Valid a) (hb : Valid b) (ha0 : a.second = 0) (hb0 : b.second = 0) :
    (a ≠ b → formatMinute a ≠ formatMinute b) ∧
    (chronLt a b ↔ formatMinute a < formatMinute b) := by
  constructor
  · intro hne heq
    exact hne (formatMinute_inj a b ha hb ha0 hb0 heq)
  · rw [formatMinute_lt_iff a b ha hb]
    unfold chronLt chronKey minuteKey
    rw [ha0, hb0]
    constructor <;> (intro h; omega)

/-- C9, witness: the 12:09 and 12:10 buckets of 2024-01-01. -/
theorem C9_identifier_witness :
    ((⟨2024, 1, 1, 12, 9, 0⟩ : DateTime) ≠ ⟨2024, 1, 1, 12, 10, 0⟩ →
      formatMinute ⟨2024, 1, 1, 12, 9, 0⟩
        ≠ formatMinute ⟨2024, 1, 1, 12, 10, 0⟩) ∧
    (chronLt ⟨2024, 1, 1, 12, 9, 0⟩ ⟨2024, 1, 1, 12, 10, 0⟩ ↔
      formatMinute ⟨2024, 1, 1, 12, 9, 0⟩
        < formatMinute ⟨2024, 1, 1, 12, 10, 0⟩) :=
  C9_identifier_inj_and_monotone ⟨2024, 1, 1, 12, 9, 0⟩ ⟨2024, 1, 1, 12, 10, 0⟩
    (by decide) (by decide) rfl rfl

/-- C4: a retention sweep targets exactly one partition — the one whose
name is derived from `cutoff = now - maxAge` — dropping it (and only it)
from the schema; every partition with any other name, in particular one
derived from any other (earlier) minute bucket, is untouched by the
sweep. -/
theorem C4_single_target_sweep (s : Schema) (now : DateTime) (maxAge : Nat)
    (b : DateTime) (hb : Valid b) (hb0 : b.second = 0)
    (hc : Valid (truncMinute (subSeconds now maxAge)))
    (hne : b ≠ truncMinute (subSeconds now maxAge)) :
    (dropOldPartitions s now maxAge false).partitions
        = s.partitions.filter (fun p => p.name ≠ dropTarget now maxAge) ∧
    (∀ p ∈ s.partitions, p.name = partitionName b →
      p ∈ (dropOldPartitions s now maxAge false).partitions) := by
  have hfilter : (dropOldPartitions s now maxAge false).partitions
      = s.partitions.filter (fun p => p.name ≠ dropTarget now maxAge) := by
    unfold dropOldPartitions execDropTable dropTarget
    by_cases hany : s.partitions.any
        (fun p => p.name = partitionName (subSeconds now maxAge))
    · simp only [hany, if_true, Bool.false_eq_true, if_false]
    · simp only [hany, Bool.false_eq_true, if_false]
      rw [Bool.not_eq_true, List.any_eq_false] at hany
      rw [eq_comm, List.filter_eq_self]
      intro p hp
      have := hany p hp
      simpa using this
  refine ⟨hfilter, ?_⟩
  intro p hp hname
  rw [hfilter]
  rw [List.mem_filter]
  refine ⟨hp, ?_⟩
  have hnames : partitionName b ≠ dropTarget now maxAge := by
    intro heq
    apply hne
    apply partitionName_inj b (truncMinute (subSeconds now maxAge)) hb hc hb0 rfl
    rw [heq]
    unfold dropTarget partitionName
    rw [formatMinute_truncMinute]
  rw [hname]
  simpa using hnames

set_option maxRecDepth 4000 in
/-- C4, witness (end-to-end scenario B): at `2024-01-01 12:10:00` with a
30-second max age the cutoff is `12:09:30`, the targeted name is
`audit_logs_20240101_1209`, and the `12:08` partition of a schema holding
the 12:08, 12:09 and 12:10 buckets survives the sweep while the 12:09
partition is dropped. -/
theorem C4_single_target_sweep_witness :
    dropTarget ⟨2024, 1, 1, 12, 10, 0⟩ 30 = "audit_logs_20240101_1209" ∧
    ((dropOldPartitions
        ⟨true,
          [⟨"audit_logs_20240101_1208", ⟨2024, 1, 1, 12, 8, 0⟩, ⟨2024, 1, 1, 12, 9, 0⟩⟩,
           ⟨"audit_logs_20240101_1209", ⟨2024, 1, 1, 12, 9, 0⟩, ⟨2024, 1, 1, 12, 10, 0⟩⟩,
           ⟨"audit_logs_20240101_1210", ⟨2024, 1, 1, 12, 10, 0⟩, ⟨2024, 1, 1, 12, 11, 0⟩⟩],
          []⟩
        ⟨2024, 1, 1, 12, 10, 0⟩ 30 false).partitions
      = List.filter (fun p => p.name ≠ dropTarget ⟨2024, 1, 1, 12, 10, 0⟩ 30)
          [⟨"audit_logs_20240101_1208", ⟨2024, 1, 1, 12, 8, 0⟩, ⟨2024, 1, 1, 12, 9, 0⟩⟩,
           ⟨"audit_logs_20240101_1209", ⟨2024, 1, 1, 12, 9, 0⟩, ⟨2024, 1, 1, 12, 10, 0⟩⟩,
           ⟨"audit_logs_20240101_1210", ⟨2024, 1, 1, 12, 10, 0⟩, ⟨2024, 1, 1, 12, 11, 0⟩⟩] ∧
     (∀ p ∈ ([⟨"audit_logs_20240101_1208", ⟨2024, 1, 1, 12, 8, 0⟩, ⟨2024, 1, 1, 12, 9, 0⟩⟩,
           ⟨"audit_logs_20240101_1209", ⟨2024, 1, 1, 12, 9, 0⟩, ⟨2024, 1, 1, 12, 10, 0⟩⟩,
           ⟨"audit_logs_20240101_1210", ⟨2024, 1, 1, 12, 10, 0⟩, ⟨2024, 1, 1, 12, 11, 0⟩⟩] : List Partition),
        p.name = partitionName ⟨2024, 1, 1, 12, 8, 0⟩ →
        p ∈ (dropOldPartitions
          ⟨true,
            [⟨"audit_logs_20240101_1208", ⟨2024, 1, 1, 12, 8, 0⟩, ⟨2024, 1, 1, 12, 9, 0⟩⟩,
             ⟨"audit_logs_20240101_1209", ⟨2024, 1, 1, 12, 9, 0⟩, ⟨2024, 1, 1, 12, 10, 0⟩⟩,
             ⟨"audit_logs_20240101_1210", ⟨2024, 1, 1, 12, 10, 0⟩, ⟨2024, 1, 1, 12, 11, 0⟩⟩],
            []⟩
          ⟨2024, 1, 1, 12, 10, 0⟩ 30 false).partitions)) := by
  refine ⟨by decide, ?_⟩
  exact C4_single_target_sweep _ ⟨2024, 1, 1, 12, 10, 0⟩ 30 ⟨2024, 1, 1, 12, 8, 0⟩
    (by decide) rfl (by decide) (by decide)

end AuditLog

namespace AuditLog

/-- C1: for a positive batch size, a run of `writeAuditLogsToDbBatch`
that reports no error makes exactly `n` new rows visible — all stamped
with the batch timestamp, every method tag drawn from the fixed `methods`
list, and all lying in a partition of the resulting schema whose interval
contains the timestamp; a run that reports an error leaves the visible
rows exactly as before (the transaction is rolled back). -/
theorem C1_writeBatch_all_or_nothing (s : Schema) (n : Nat) (now : DateTime)
    (pick : Nat → Fin 5) (fs : FailSpec) (hn : 0 < n) :
    ((writeAuditLogsToDbBatch s n now pick fs).2 = none →
      ∃ p newRows,
        p ∈ (writeAuditLogsToDbBatch s n now pick fs).1.partitions ∧
        chronLe p.lo now ∧ chronLt now p.hi ∧
        (writeAuditLogsToDbBatch s n now pick fs).1.rows = s.rows ++ newRows ∧
        newRows.length = n ∧
        (∀ r ∈ newRows,
          r.created_at = now ∧ r.method ∈ methods ∧ r.part = p.name)) ∧
    ((writeAuditLogsToDbBatch s n now pick fs).2 ≠ none →
      (writeAuditLogsToDbBatch s n now pick fs).1.rows = s.rows) := by
  rcases he : ensurePartition s now fs.ensureFail with ⟨s1, res⟩
  have hrows : s1.rows = s.rows := by
    have h0 := ensure_rows s now fs.ensureFail
    rw [he] at h0
    exact h0
  cases res with
  | error e =>
    have hwb : writeAuditLogsToDbBatch s n now pick fs = (s1, some e) := by
      unfold writeAuditLogsToDbBatch
      rw [he]
    rw [hwb]
    exact ⟨fun h => absurd h (by simp), fun _ => hrows⟩
  | ok o =>
    have hwb : writeAuditLogsToDbBatch s n now pick fs =
        (if fs.beginFail then (s1, some .transient)
         else if fs.prepareFail then (s1, some .transient)
         else
           match buildBatch s1 now pick fs.execFailAt 0 n with
           | none => (s1, some .transient)
           | some pending =>
             if fs.commitFail then (s1, some .transient)
             else ({ s1 with rows := s1.rows ++ pending }, none)) := by
      unfold writeAuditLogsToDbBatch
      rw [he]
    rw [hwb]
    by_cases hbg : fs.beginFail
    · rw [if_pos hbg]
      exact ⟨fun h => absurd h (by simp), fun _ => hrows⟩
    rw [if_neg hbg]
    by_cases hpr : fs.prepareFail
    · rw [if_pos hpr]
      exact ⟨fun h => absurd h (by simp), fun _ => hrows⟩
    rw [if_neg hpr]
    rcases hbb : buildBatch s1 now pick fs.execFailAt 0 n with _ | pending
    · exact ⟨fun h => absurd h (by simp), fun _ => hrows⟩
    simp only []
    by_cases hcm : fs.commitFail
    · rw [if_pos hcm]
      exact ⟨fun h => absurd h (by simp), fun _ => hrows⟩
    rw [if_neg hcm]
    constructor
    · intro _
      obtain ⟨hlen, hall⟩ := buildBatch_some n 0 s1 now pick fs.execFailAt pending hbb
      cases pending with
      | nil =>
        exfalso
        rw [List.length_nil] at hlen
        omega
      | cons r0 rest =>
        obtain ⟨hc0, hm0, p, hfind, hp0⟩ := hall r0 (List.mem_cons_self r0 rest)
        have hcov := List.find?_some hfind
        unfold covers at hcov
        rw [Bool.and_eq_true, decide_eq_true_eq, decide_eq_true_eq] at hcov
        refine ⟨p, r0 :: rest, ?_, hcov.1, hcov.2, ?_, hlen, ?_⟩
        · exact List.mem_of_find?_eq_some hfind
        · show s1.rows ++ (r0 :: rest) = s.rows ++ (r0 :: rest)
          rw [hrows]
        · intro r hr
          obtain ⟨h1, h2, p2, hfind2, h3⟩ := hall r hr
          rw [hfind] at hfind2
          injection hfind2 with hpp
          exact ⟨h1, h2, by rw [h3, hpp]⟩
    · intro h
      exact absurd rfl h

/-- C1, witness: a batch of two rows at `2024-01-01 12:05:30` on the
empty parent, with no injected failure, and a batch with an injected
`stmt.Exec` failure. -/
theorem C1_writeBatch_witness :
    (0 : Nat) < 2 ∧
    ((writeAuditLogsToDbBatch ⟨true, [], []⟩ 2 ⟨2024, 1, 1, 12, 5, 30⟩
        (fun _ => 0) ⟨false, false, false, none, false⟩).2 = none →
      ∃ p newRows,
        p ∈ (writeAuditLogsToDbBatch ⟨true, [], []⟩ 2 ⟨2024, 1, 1, 12, 5, 30⟩
          (fun _ => 0) ⟨false, false, false, none, false⟩).1.partitions ∧
        chronLe p.lo ⟨2024, 1, 1, 12, 5, 30⟩ ∧
        chronLt ⟨2024, 1, 1, 12, 5, 30⟩ p.hi ∧
        (writeAuditLogsToDbBatch ⟨true, [], []⟩ 2 ⟨2024, 1, 1, 12, 5, 30⟩
          (fun _ => 0) ⟨false, false, false, none, false⟩).1.rows
            = ([] : List Row) ++ newRows ∧
        newRows.length = 2 ∧
        (∀ r ∈ newRows, r.created_at = ⟨2024, 1, 1, 12, 5, 30⟩ ∧
          r.method ∈ methods ∧ r.part = p.name)) ∧
    ((writeAuditLogsToDbBatch ⟨true, [], []⟩ 2 ⟨2024, 1, 1, 12, 5, 30⟩
        (fun _ => 0) ⟨false, false, false, some 1, false⟩).2 ≠ none →
      (writeAuditLogsToDbBatch ⟨true, [], []⟩ 2 ⟨2024, 1, 1, 12, 5, 30⟩
        (fun _ => 0) ⟨false, false, false, some 1, false⟩).1.rows
          = ([] : List Row)) :=
  ⟨by decide,
   (C1_writeBatch_all_or_nothing ⟨true, [], []⟩ 2 ⟨2024, 1, 1, 12, 5, 30⟩
      (fun _ => 0) ⟨false, false, false, none, false⟩ (by decide)).1,
   (C1_writeBatch_all_or_nothing ⟨true, [], []⟩ 2 ⟨2024, 1, 1, 12, 5, 30⟩
      (fun _ => 0) ⟨false, false, false, some 1, false⟩ (by decide)).2⟩

end AuditLog
